import Mathlib

/-!
Shallow embedding of the Aiya-todo task tracker core (TypeScript sources under
`src/`): the dependency resolver (`src/utils/DependencyResolver.ts`), the
execution state machine (`src/utils/ExecutionStateManager.ts`), the task
manager (`src/lib/TodoManager.ts`) and the persistence adapter
(`src/lib/TodoPersistence.ts`), together with theorems settling the frozen
claims about them.

Modelling conventions:
* JavaScript `undefined`-able fields become `Option`.
* `Date` values are represented by their ISO-8601 string (the only granularity
  at which the code ever compares or serializes them).
* JS truthiness on strings (`s && ...`) is `s ≠ "" ∧ s ≠ undefined`; on arrays
  and objects it is plain presence (empty arrays are truthy in JS).
* Thrown exceptions become `Except`/sum results; the async mutual-exclusion
  wrapper of `updateExecutionStatus` (a per-id promise map) is concurrency
  plumbing with no effect on a single request, so the pure core
  `performStateTransition` is what is embedded.
* The recursive DFS of `detectCircularDependencies` is embedded as a
  worklist recursion `dfsL` with a fuel argument bounding the recursion
  depth; the chosen fuel (`poolCard + 1`) is provably never exhausted.
-/

namespace AiyaTodo

/-- Execution lifecycle states (`src/types.ts`, `ExecutionStateManager.ts`). -/
inductive ExecutionState where
  | pending
  | ready
  | running
  | completed
  | failed
deriving DecidableEq, Repr

/-- Verification status literals (`src/types.ts`). -/
inductive VerificationStatus where
  | pending
  | verified
  | failed
deriving DecidableEq, Repr

/-- The `executionStatus` record of a todo (`src/types.ts`). -/
structure ExecStatus where
  state : ExecutionState
  lastError : Option String := none
  attempts : Option Nat := none
deriving DecidableEq, Repr

/-- The `executionConfig` bag (`src/types.ts`); `params` is an opaque
string-keyed bag, represented as key/value pairs. -/
structure ExecutionConfig where
  toolsRequired : Option (List String) := none
  params : Option (List (String × String)) := none
  retryOnFailure : Option Bool := none
deriving DecidableEq, Repr

/-- The central `Todo` entity (`src/types.ts`). `createdAt` is the ISO-8601
string of the creation date. -/
structure Todo where
  id : String
  title : String
  completed : Bool
  createdAt : String
  description : Option String := none
  tags : Option (List String) := none
  groupId : Option String := none
  verificationMethod : Option String := none
  verificationStatus : Option VerificationStatus := none
  verificationNotes : Option String := none
  dependencies : Option (List String) := none
  executionOrder : Option Int := none
  executionConfig : Option ExecutionConfig := none
  executionStatus : Option ExecStatus := none
deriving DecidableEq, Repr

/-! ## Dependency Resolver (`src/utils/DependencyResolver.ts`) -/

/-- `allTodos.find(t => t.id === id)`. -/
def findTodo (todos : List Todo) (id : String) : Option Todo :=
  todos.find? (fun t => t.id == id)

/-- The dependency ids of the (first) todo carrying `id`; `[]` when the id is
unknown or the todo has no `dependencies` field (the DFS of
`detectCircularDependencies` treats both alike: `if (todo?.dependencies)`). -/
def depsOf (todos : List Todo) (id : String) : List String :=
  match findTodo todos id with
  | some t => t.dependencies.getD []
  | none => []

/-- `t.executionStatus?.state === 'completed'`. -/
def execStateCompleted (t : Todo) : Bool :=
  match t.executionStatus with
  | some st => st.state == .completed
  | none => false

/-- `t.completed || t.executionStatus?.state === 'completed'` — the
completion test used by `isTaskReady` and the state machine. -/
def isDone (t : Todo) : Bool := t.completed || execStateCompleted t

/-- Body of the `every` callback in `isTaskReady`: the dependency id has a
matching task and that task is done. -/
def satisfiedDep (allTodos : List Todo) (depId : String) : Bool :=
  match findTodo allTodos depId with
  | none => false
  | some dep => isDone dep

/-- `DependencyResolver.isTaskReady` (lines 4-16). -/
def isTaskReady (todo : Todo) (allTodos : List Todo) : Bool :=
  match todo.dependencies with
  | none => true
  | some deps => deps.isEmpty || deps.all (satisfiedDep allTodos)

/-- JS `Array.prototype.indexOf` restricted to the guarded case (the element
is present; the `-1` branch of the source is dead there). -/
def jsIndexOf (l : List String) (a : String) : Nat :=
  match l with
  | [] => 0
  | x :: xs => if x = a then 0 else jsIndexOf xs a + 1

/-- One `dfs(todoId, path)` call of `detectCircularDependencies`
(lines 31-60), returning the updated `visited` set and the cycles recorded
in its subtree.  `path` plays the role of both the JS `path` argument and
the `recursionStack` set (the source maintains them with identical
membership, so the `cycleStart === -1` branch of the source is dead).
`fuel` bounds the recursion depth; the fuel-out branch is proven unreachable
for the fuel used by `detectCircularDependencies`. -/
def dfsVisit (todos : List Todo) :
    Nat → List String → List String → String →
      List String × List (List String)
  | 0, visited, _, _ => (visited, [])
  | fuel + 1, visited, path, id =>
    if id ∈ path then
      (visited, [path.drop (jsIndexOf path id) ++ [id]])
    else if id ∈ visited then
      (visited, [])
    else
      (depsOf todos id).foldl
        (fun acc d =>
          let r := dfsVisit todos fuel acc.1 (path ++ [id]) d
          (r.1, acc.2 ++ r.2))
        (id :: visited, [])

/-- Sequential processing of a worklist of ids at a fixed recursion path:
the dependency loop of `dfs` (lines 53-57) and the top-level loop over all
todos (lines 62-66), threading `visited` and accumulating cycles in order. -/
def dfsL (todos : List Todo) (fuel : Nat) (visited path worklist : List String) :
    List String × List (List String) :=
  worklist.foldl
    (fun acc id =>
      let r := dfsVisit todos fuel acc.1 path id
      (r.1, acc.2 ++ r.2))
    (visited, [])

/-- Every id that can ever be passed to the DFS: the ids of the population
plus every mentioned dependency id. -/
def idPool (todos : List Todo) : List String :=
  todos.map (fun t => t.id) ++ todos.flatMap (fun t => t.dependencies.getD [])

/-- Number of distinct ids in the pool — an upper bound for the DFS
recursion depth. -/
def poolCard (todos : List Todo) : Nat := (idPool todos).toFinset.card

/-- `DependencyResolver.detectCircularDependencies` (lines 26-69). -/
def detectCircularDependencies (todos : List Todo) : List (List String) :=
  (dfsL todos (poolCard todos + 1) [] [] (todos.map (fun t => t.id))).2

/-- The placeholder todo synthesized by `validateDependencies` when `todoId`
does not exist yet (lines 96-102). -/
def tempTodo (todoId : String) (dependencies : List String) : Todo :=
  { id := todoId, title := "temp", completed := false,
    createdAt := "", dependencies := some dependencies }

/-- Replace the dependencies of the first todo whose id is `todoId`
(mirrors `findIndex` + positional update, lines 84-93). -/
def setDepsFirst (todos : List Todo) (todoId : String)
    (dependencies : List String) : List Todo :=
  match todos with
  | [] => []
  | t :: ts =>
    if t.id = todoId then { t with dependencies := some dependencies } :: ts
    else t :: setDepsFirst ts todoId dependencies

/-- The hypothetical population against which `validateDependencies` runs the
cycle check (lines 83-104). -/
def hypotheticalPopulation (todoId : String) (dependencies : List String)
    (allTodos : List Todo) : List Todo :=
  if allTodos.any (fun t => t.id == todoId) then
    setDepsFirst allTodos todoId dependencies
  else
    allTodos ++ [tempTodo todoId dependencies]

/-- The two errors `validateDependencies` can throw. -/
inductive VError where
  | depNotFound (depId : String)
  | circular (cycle : List String)
deriving DecidableEq, Repr

instance {ε α : Type} [DecidableEq ε] [DecidableEq α] :
    DecidableEq (Except ε α) := fun x y =>
  match x, y with
  | .ok a, .ok b =>
    if h : a = b then isTrue (h ▸ rfl)
    else isFalse (fun hh => h (Except.ok.inj hh))
  | .ok _, .error _ => isFalse (fun h => Except.noConfusion h)
  | .error _, .ok _ => isFalse (fun h => Except.noConfusion h)
  | .error a, .error b =>
    if h : a = b then isTrue (h ▸ rfl)
    else isFalse (fun hh => h (Except.error.inj hh))

/-- `DependencyResolver.validateDependencies` (lines 71-114). -/
def validateDependencies (todoId : String) (dependencies : List String)
    (allTodos : List Todo) : Except VError Unit :=
  if dependencies.isEmpty then .ok ()
  else
    match dependencies.find? (fun depId => !(allTodos.any (fun t => t.id == depId))) with
    | some d => .error (.depNotFound d)
    | none =>
      let todosForCycleCheck := hypotheticalPopulation todoId dependencies allTodos
      let cycles := detectCircularDependencies todosForCycleCheck
      match cycles.find? (fun cycle => cycle.contains todoId) with
      | some cycle => .error (.circular cycle)
      | none => .ok ()

/-! ## Execution State Machine (`src/utils/ExecutionStateManager.ts`) -/

/-- The `VALID_TRANSITIONS` table (lines 18-24). -/
def validTransitionsFrom : ExecutionState → List ExecutionState
  | .pending => [.ready, .running]
  | .ready => [.running, .pending]
  | .running => [.completed, .failed, .pending]
  | .completed => []
  | .failed => [.pending]

/-- `ExecutionStateManager.isValidTransition` (lines 31-34). -/
def isValidTransition (currentState newState : ExecutionState) : Bool :=
  (validTransitionsFrom currentState).contains newState

/-- `StateTransitionRequest` (lines 5-9). -/
structure StateTransitionRequest where
  todoId : String
  newState : ExecutionState
  error : Option String := none
deriving DecidableEq, Repr

/-- `StateTransitionResult` (lines 11-15). -/
structure StateTransitionResult where
  success : Bool
  updatedTodo : Todo
  message : String
deriving DecidableEq, Repr

/-- Rendering of a state literal inside the result messages. -/
def ExecutionState.str : ExecutionState → String
  | .pending => "pending"
  | .ready => "ready"
  | .running => "running"
  | .completed => "completed"
  | .failed => "failed"

/-- `todo.executionStatus?.state || 'pending'` (line 66). -/
def currentStateOf (todo : Todo) : ExecutionState :=
  (todo.executionStatus.map (fun st => st.state)).getD .pending

/-- `todo.executionStatus || { state: 'pending' }` (line 79). -/
def currentStatusOf (todo : Todo) : ExecStatus :=
  todo.executionStatus.getD { state := .pending }

/-- `ExecutionStateManager.performStateTransition` (lines 61-118) as a pure
function.  The second component is the `executionStatus` record passed to the
caller-supplied `updateTodoFn` (`none` when no update is written back, i.e.
the early `success: false` return). -/
def performStateTransition (todo : Todo) (request : StateTransitionRequest) :
    StateTransitionResult × Option ExecStatus :=
  let currentState := currentStateOf todo
  let newState := request.newState
  if !(isValidTransition currentState newState) then
    let cs := currentState.str
    let ns := newState.str
    ({ success := false, updatedTodo := todo,
       message := s!"Invalid state transition from {cs} to {ns}" }, none)
  else
    let currentStatus := currentStatusOf todo
    let baseAttempts := currentStatus.attempts.getD 0
    let newAttempts :=
      if newState = .running ∨ (currentState = .failed ∧ newState = .pending) then
        baseAttempts + 1
      else baseAttempts
    let errorMessage : Option String :=
      if request.error.isSome then request.error
      else if newState = .completed then none
      else if currentState = .failed ∧ newState = .pending then none
      else currentStatus.lastError
    let executionStatus : ExecStatus :=
      { state := newState, attempts := some newAttempts, lastError := errorMessage }
    let cs := currentState.str
    let ns := newState.str
    let na := toString newAttempts
    ({ success := true,
       updatedTodo := { todo with executionStatus := some executionStatus },
       message := s!"Execution status updated: {cs} → {ns} (attempts: {na})" },
     some executionStatus)

/-- JS truthiness of an optional string (`undefined` and `""` are falsy). -/
def truthyStr : Option String → Bool
  | none => false
  | some s => !(s = "")

/-- The new `executionStatus` produced by the auto-completion update of
`checkAndCompleteMainTask`: `{ ...mainTask.executionStatus, state: completed }`
(lines 162-165).  Spreading `undefined` contributes nothing. -/
def completedStatusOf (st : Option ExecStatus) : ExecStatus :=
  match st with
  | some s => { s with state := .completed }
  | none => { state := .completed }

/-- The todo written back by the auto-completion update (lines 160-168),
after the partial update is merged into the main task by the supplied
`updateTodoFn` (the manager's replace-by-id merge). -/
def applyMainCompletion (mainTask : Todo) : Todo :=
  { mainTask with
    completed := true,
    executionStatus := some (completedStatusOf mainTask.executionStatus),
    verificationStatus :=
      if truthyStr mainTask.verificationMethod then some .verified
      else mainTask.verificationStatus }

/-- Result of `checkAndCompleteMainTask`; `written` is the todo passed back
through `updateTodoFn` when an update is performed, `none` otherwise. -/
structure MainCompletionResult where
  mainTaskCompleted : Bool
  mainTask : Option Todo := none
  written : Option Todo := none
deriving DecidableEq, Repr

/-- `t.executionOrder === 0`. -/
def isMainTask (t : Todo) : Bool := t.executionOrder == some 0

/-- `t.executionOrder !== undefined && t.executionOrder > 0`. -/
def isSubtask (t : Todo) : Bool :=
  match t.executionOrder with
  | some n => decide (0 < n)
  | none => false

/-- `allTodos.filter(todo => todo.groupId === groupId)` (line 129). -/
def groupTasksOf (groupId : String) (allTodos : List Todo) : List Todo :=
  allTodos.filter (fun t => t.groupId == some groupId)

/-- `ExecutionStateManager.checkAndCompleteMainTask` (lines 123-174) as a pure
function of the current population. -/
def checkAndCompleteMainTask (groupId : String) (allTodos : List Todo) :
    MainCompletionResult :=
  let groupTasks := groupTasksOf groupId allTodos
  if groupTasks.isEmpty then { mainTaskCompleted := false }
  else
    match groupTasks.find? isMainTask with
    | none => { mainTaskCompleted := false }
    | some mainTask =>
      if isDone mainTask then
        { mainTaskCompleted := true, mainTask := some mainTask }
      else
        let subtasks := groupTasks.filter isSubtask
        if subtasks.isEmpty then
          { mainTaskCompleted := false, mainTask := some mainTask }
        else if subtasks.all isDone then
          let completedMainTask := applyMainCompletion mainTask
          { mainTaskCompleted := true, mainTask := some completedMainTask,
            written := some completedMainTask }
        else
          { mainTaskCompleted := false, mainTask := some mainTask }

/-! ## Task Manager (`src/lib/TodoManager.ts`) -/

/-- The in-memory store: insertion-ordered id/todo map plus counter. -/
structure TodoStore where
  todos : List (String × Todo)
  nextId : Nat
deriving DecidableEq, Repr

/-- `Map.prototype.set`: replace in place when the key exists, append
otherwise. -/
def mapSet (m : List (String × Todo)) (k : String) (v : Todo) :
    List (String × Todo) :=
  if m.any (fun p => p.1 == k) then
    m.map (fun p => if p.1 == k then (k, v) else p)
  else m ++ [(k, v)]

/-- `Map.prototype.get`. -/
def mapGet (m : List (String × Todo)) (k : String) : Option Todo :=
  (m.find? (fun p => p.1 == k)).map (fun p => p.2)

/-- `Array.from(map.values())`, i.e. `getAllTodos` (no filter). -/
def getAllTodos (store : TodoStore) : List Todo :=
  store.todos.map (fun p => p.2)

/-- `CreateTodoRequest` (`src/types.ts`). -/
structure CreateTodoRequest where
  title : String
  description : Option String := none
  tags : Option (List String) := none
  groupId : Option String := none
  verificationMethod : Option String := none
  dependencies : Option (List String) := none
  executionOrder : Option Int := none
  executionConfig : Option ExecutionConfig := none
  executionStatus : Option ExecStatus := none
deriving DecidableEq, Repr

/-- The errors `createTodo` can throw. -/
inductive CreateError where
  | emptyTitle
  | validation (e : VError)
deriving DecidableEq, Repr

/-- JS conditional spread `...(s && { f: s })` for an optional string field:
the field is kept only when the string is truthy. -/
def keepTruthy (s : Option String) : Option String :=
  match s with
  | some v => if v = "" then none else some v
  | none => none

/-- The dependency validation step of `createTodo` (lines 74-81): performed
only when a non-empty dependency list is supplied, against the identifier the
new task is about to receive. -/
def createValidation (store : TodoStore) (request : CreateTodoRequest) :
    Except VError Unit :=
  match request.dependencies with
  | some deps =>
    if deps.isEmpty then .ok ()
    else validateDependencies (toString store.nextId) deps (getAllTodos store)
  | none => .ok ()

/-- JS `String.prototype.trim`: drop leading and trailing whitespace.
Modelled directly over the character list (whitespace per
`Char.isWhitespace`), since `String.trim` does not reduce in the kernel. -/
def jsTrim (s : String) : String :=
  ⟨((s.data.dropWhile Char.isWhitespace).reverse.dropWhile
      Char.isWhitespace).reverse⟩

/-- The record `createTodo` builds (lines 83-96): trimmed title, defaults,
and the conditional spreads (string fields dropped when falsy, arrays and
objects kept whenever present, `executionOrder` kept when defined). -/
def builtTodo (store : TodoStore) (request : CreateTodoRequest) (now : String) :
    Todo :=
  { id := toString store.nextId,
    title := jsTrim request.title,
    completed := false,
    createdAt := now,
    description := keepTruthy request.description,
    tags := request.tags,
    groupId := keepTruthy request.groupId,
    verificationMethod := keepTruthy request.verificationMethod,
    dependencies := request.dependencies,
    executionOrder := request.executionOrder,
    executionConfig := request.executionConfig,
    executionStatus := request.executionStatus }

/-- The store after a successful `createTodo` (lines 98-99): the new task
stored under its id, the counter incremented. -/
def storeAfterCreate (store : TodoStore) (request : CreateTodoRequest)
    (now : String) : TodoStore :=
  { todos := mapSet store.todos (builtTodo store request now).id
      (builtTodo store request now),
    nextId := store.nextId + 1 }

/-- `TodoManager.createTodo` (lines 68-103) as a pure state transformer.
`now` stands for `new Date()` (ISO string).  On error the store is returned
unchanged (the source throws before any mutation). -/
def createTodo (store : TodoStore) (request : CreateTodoRequest) (now : String) :
    TodoStore × Except CreateError Todo :=
  if jsTrim request.title = "" then (store, .error .emptyTitle)
  else
    match createValidation store request with
    | .error e => (store, .error (.validation e))
    | .ok _ =>
      (storeAfterCreate store request now, .ok (builtTodo store request now))

/-- `GetTodosNeedingVerificationRequest` (`src/types.ts`). -/
structure GetTodosNeedingVerificationRequest where
  groupId : Option String := none
deriving DecidableEq, Repr

/-- `TodoManager.getTodosNeedingVerification` (lines 210-222), over the list
of stored todos. -/
def getTodosNeedingVerification (request : GetTodosNeedingVerificationRequest)
    (todos : List Todo) : List Todo :=
  todos.filter (fun todo =>
    let hasVerificationMethod := todo.verificationMethod.isSome
    let isPending := todo.verificationStatus == some .pending ||
      todo.verificationStatus == none
    let matchesGroup := request.groupId == none || todo.groupId == request.groupId
    hasVerificationMethod && isPending && matchesGroup)

/-! ## Persistence Adapter (`src/lib/TodoPersistence.ts`) -/

/-- One element of the on-disk `todos` array.  `JSON.stringify` omits absent
fields, so presence on disk coincides with the `Option`. -/
structure SavedTodo where
  id : String
  title : String
  completed : Bool
  createdAt : String
  description : Option String := none
  tags : Option (List String) := none
  groupId : Option String := none
  verificationMethod : Option String := none
  verificationStatus : Option VerificationStatus := none
  verificationNotes : Option String := none
  dependencies : Option (List String) := none
  executionOrder : Option Int := none
  executionConfig : Option ExecutionConfig := none
  executionStatus : Option ExecStatus := none
deriving DecidableEq, Repr

/-- The on-disk JSON document `{ todos, nextId }`. -/
structure SavedDoc where
  todos : List SavedTodo
  nextId : Option Nat := none
deriving DecidableEq, Repr

/-- Serialization of one todo in `saveTodos` (lines 13-16):
`{ ...todo, createdAt: todo.createdAt.toISOString() }` (here `createdAt`
already is the ISO string). -/
def saveTodo (t : Todo) : SavedTodo :=
  { id := t.id, title := t.title, completed := t.completed,
    createdAt := t.createdAt, description := t.description, tags := t.tags,
    groupId := t.groupId, verificationMethod := t.verificationMethod,
    verificationStatus := t.verificationStatus,
    verificationNotes := t.verificationNotes,
    dependencies := t.dependencies, executionOrder := t.executionOrder,
    executionConfig := t.executionConfig, executionStatus := t.executionStatus }

/-- `TodoPersistence.saveTodos` (lines 11-26), on the map's value list. -/
def saveTodos (todos : List Todo) (nextId : Nat) : SavedDoc :=
  { todos := todos.map saveTodo, nextId := some nextId }

/-- Deserialization of one stored item in `loadTodos` (lines 34-52).  The
optional string fields are guarded by JS truthiness (`item.description &&`),
so an empty string on disk is dropped; arrays (even empty) and objects are
truthy and survive; `executionOrder` is guarded by `!== undefined`. -/
def loadTodo (item : SavedTodo) : Todo :=
  { id := item.id, title := item.title, completed := item.completed,
    createdAt := item.createdAt,
    description := keepTruthy item.description,
    tags := item.tags,
    groupId := keepTruthy item.groupId,
    verificationMethod := keepTruthy item.verificationMethod,
    verificationStatus := item.verificationStatus,
    verificationNotes := keepTruthy item.verificationNotes,
    dependencies := item.dependencies,
    executionOrder := item.executionOrder,
    executionConfig := item.executionConfig,
    executionStatus := item.executionStatus }

/-- `TodoPersistence.loadTodos` (lines 28-66) on an existing document:
the loaded todos and `parsed.nextId || 1`. -/
def loadTodos (doc : SavedDoc) : List Todo × Nat :=
  (doc.todos.map loadTodo,
   match doc.nextId with
   | some n => if n = 0 then 1 else n
   | none => 1)

/-! ## The dependency graph

Specification-side notions used to state the claims about the resolver:
edges, cycles, acyclicity. -/

/-- Dependency edge of a population: `b` is listed among the dependencies of
the (first) todo carrying id `a` — exactly the edges the DFS follows. -/
def depEdge (todos : List Todo) (a b : String) : Prop := b ∈ depsOf todos a

instance (todos : List Todo) (a b : String) : Decidable (depEdge todos a b) :=
  inferInstanceAs (Decidable (b ∈ depsOf todos a))

/-- A dependency cycle: a nonempty edge chain whose first and last node
coincide. -/
def IsDepCycle (todos : List Todo) (l : List String) : Prop :=
  2 ≤ l.length ∧ l.head? = l.getLast? ∧ l.Chain' (depEdge todos)

/-- A computation-friendly decider for `Chain'` (the Mathlib instance is
tactic-defined and does not reduce in the kernel). -/
def decChain' {R : String → String → Prop} [DecidableRel R] :
    (l : List String) → Decidable (l.Chain' R)
  | [] => isTrue List.chain'_nil
  | [a] => isTrue (List.chain'_singleton a)
  | a :: b :: t =>
    haveI : Decidable (List.Chain' R (b :: t)) := decChain' (b :: t)
    decidable_of_iff (R a b ∧ List.Chain' R (b :: t)) List.chain'_cons.symm

instance (todos : List Todo) (l : List String) : Decidable (IsDepCycle todos l) :=
  haveI : Decidable (l.Chain' (depEdge todos)) := decChain' l
  decidable_of_iff
    (2 ≤ l.length ∧ l.head? = l.getLast? ∧ l.Chain' (depEdge todos)) Iff.rfl

/-- The dependency graph has no cycle at all. -/
def Acyclic (todos : List Todo) : Prop := ∀ l, ¬ IsDepCycle todos l

/-- Some dependency cycle passes through the node `v`. -/
def HasCycleThrough (todos : List Todo) (v : String) : Prop :=
  ∃ l, IsDepCycle todos l ∧ v ∈ l

/-! ## Basic facts about `jsIndexOf`, `drop`, `dfsL` -/

theorem jsIndexOf_lt_length {a : String} :
    ∀ {l : List String}, a ∈ l → jsIndexOf l a < l.length := by
  intro l h
  induction l with
  | nil => cases h
  | cons x xs ih =>
    by_cases hx : x = a
    · simp [jsIndexOf, hx]
    · have hm : a ∈ xs := by
        rcases List.mem_cons.mp h with h1 | h1
        · exact absurd h1.symm hx
        · exact h1
      simpa [jsIndexOf, hx] using ih hm

theorem head?_drop_jsIndexOf {a : String} :
    ∀ {l : List String}, a ∈ l → (l.drop (jsIndexOf l a)).head? = some a := by
  intro l h
  induction l with
  | nil => cases h
  | cons x xs ih =>
    by_cases hx : x = a
    · simp [jsIndexOf, hx]
    · have hm : a ∈ xs := by
        rcases List.mem_cons.mp h with h1 | h1
        · exact absurd h1.symm hx
        · exact h1
      simpa [jsIndexOf, hx] using ih hm

theorem getLast?_drop_of_lt {α : Type} :
    ∀ (l : List α) (i : Nat), i < l.length → (l.drop i).getLast? = l.getLast? := by
  intro l
  induction l with
  | nil => intro i hi; simp at hi
  | cons x xs ih =>
    intro i hi
    match i with
    | 0 => rfl
    | i + 1 =>
      have hi' : i < xs.length := by simpa using hi
      have hne : xs ≠ [] := by
        intro h; rw [h] at hi'; simp at hi'
      rw [List.drop_succ_cons, ih i hi']
      match xs, hne with
      | y :: ys, _ => rfl

theorem dfsL_nil (todos : List Todo) (fuel : Nat) (V P : List String) :
    dfsL todos fuel V P [] = (V, []) := rfl

/-- Accumulator lemma for the cycle list threaded by the worklist fold. -/
theorem dfsL_acc (todos : List Todo) (fuel : Nat) (path : List String) :
    ∀ (L V : List String) (C : List (List String)),
      L.foldl
        (fun acc id =>
          let r := dfsVisit todos fuel acc.1 path id
          (r.1, acc.2 ++ r.2))
        (V, C) =
      ((dfsL todos fuel V path L).1, C ++ (dfsL todos fuel V path L).2) := by
  intro L
  induction L with
  | nil => intro V C; simp [dfsL]
  | cons id rest ih =>
    intro V C
    rw [List.foldl_cons]
    simp only []
    rw [ih]
    conv_rhs => rw [dfsL]
    rw [List.foldl_cons]
    simp only []
    rw [ih]
    simp [List.append_assoc]

theorem dfsL_cons (todos : List Todo) (fuel : Nat) (V P : List String)
    (id : String) (rest : List String) :
    dfsL todos fuel V P (id :: rest) =
      ((dfsL todos fuel (dfsVisit todos fuel V P id).1 P rest).1,
       (dfsVisit todos fuel V P id).2 ++
         (dfsL todos fuel (dfsVisit todos fuel V P id).1 P rest).2) := by
  rw [dfsL, List.foldl_cons]
  simp only []
  rw [dfsL_acc]
  simp

theorem dfsVisit_zero (todos : List Todo) (V P : List String) (id : String) :
    dfsVisit todos 0 V P id = (V, []) := rfl

theorem dfsVisit_mem_path (todos : List Todo) (fuel : Nat) (V P : List String)
    (id : String) (h : id ∈ P) :
    dfsVisit todos (fuel + 1) V P id =
      (V, [P.drop (jsIndexOf P id) ++ [id]]) := by
  rw [dfsVisit]; simp [h]

theorem dfsVisit_mem_visited (todos : List Todo) (fuel : Nat)
    (V P : List String) (id : String) (h : id ∉ P) (h2 : id ∈ V) :
    dfsVisit todos (fuel + 1) V P id = (V, []) := by
  rw [dfsVisit]; simp [h, h2]

theorem dfsVisit_fresh (todos : List Todo) (fuel : Nat) (V P : List String)
    (id : String) (h : id ∉ P) (h2 : id ∉ V) :
    dfsVisit todos (fuel + 1) V P id =
      dfsL todos fuel (id :: V) (P ++ [id]) (depsOf todos id) := by
  rw [dfsVisit, dfsL]; simp [h, h2]

theorem dfsL_zero (todos : List Todo) (V P : List String) :
    ∀ (L : List String), dfsL todos 0 V P L = (V, []) := by
  intro L
  induction L with
  | nil => rfl
  | cons id rest ih =>
    rw [dfsL_cons, dfsVisit_zero]
    simp only []
    rw [ih]  -- uses ih at the same visited set
    simp

theorem dfsL_mem_path (todos : List Todo) (fuel : Nat) (V P : List String)
    (id : String) (rest : List String) (h : id ∈ P) :
    dfsL todos (fuel + 1) V P (id :: rest) =
      ((dfsL todos (fuel + 1) V P rest).1,
       (P.drop (jsIndexOf P id) ++ [id]) :: (dfsL todos (fuel + 1) V P rest).2) := by
  rw [dfsL_cons, dfsVisit_mem_path todos fuel V P id h]
  simp

theorem dfsL_mem_visited (todos : List Todo) (fuel : Nat) (V P : List String)
    (id : String) (rest : List String) (h : id ∉ P) (h2 : id ∈ V) :
    dfsL todos (fuel + 1) V P (id :: rest) = dfsL todos (fuel + 1) V P rest := by
  rw [dfsL_cons, dfsVisit_mem_visited todos fuel V P id h h2]
  simp

theorem dfsL_fresh (todos : List Todo) (fuel : Nat) (V P : List String)
    (id : String) (rest : List String) (h : id ∉ P) (h2 : id ∉ V) :
    dfsL todos (fuel + 1) V P (id :: rest) =
      ((dfsL todos (fuel + 1)
          (dfsL todos fuel (id :: V) (P ++ [id]) (depsOf todos id)).1 P rest).1,
       (dfsL todos fuel (id :: V) (P ++ [id]) (depsOf todos id)).2 ++
       (dfsL todos (fuel + 1)
          (dfsL todos fuel (id :: V) (P ++ [id]) (depsOf todos id)).1 P rest).2) := by
  rw [dfsL_cons, dfsVisit_fresh todos fuel V P id h h2]

/-! ## Soundness of the DFS: every recorded cycle is a dependency cycle -/

/-- The cycle recorded when the DFS meets a node already on the recursion
path is a genuine dependency cycle. -/
theorem recorded_cycle_sound (todos : List Todo) (P : List String) (id : String)
    (hP : P.Chain' (depEdge todos)) (hp : id ∈ P)
    (hlast : ∀ p, P.getLast? = some p → depEdge todos p id) :
    IsDepCycle todos (P.drop (jsIndexOf P id) ++ [id]) := by
  have hi : jsIndexOf P id < P.length := jsIndexOf_lt_length hp
  have hdropnil : P.drop (jsIndexOf P id) ≠ [] := by
    intro h
    have := List.length_drop (jsIndexOf P id) P
    rw [h] at this
    simp at this
    omega
  refine ⟨?_, ?_, ?_⟩
  · have := List.length_drop (jsIndexOf P id) P
    have h1 : 1 ≤ (P.drop (jsIndexOf P id)).length :=
      List.length_pos.mpr hdropnil
    simp only [List.length_append, List.length_singleton]
    omega
  · rw [List.head?_append_of_ne_nil _ hdropnil, head?_drop_jsIndexOf hp,
      List.getLast?_concat]
  · rw [List.chain'_append]
    refine ⟨List.Chain'.drop hP _, List.chain'_singleton id, ?_⟩
    intro x hx y hy
    simp only [List.head?_cons, Option.mem_def, Option.some.injEq] at hy
    subst hy
    rw [Option.mem_def, getLast?_drop_of_lt P (jsIndexOf P id) hi] at hx
    exact hlast x hx

/-- Soundness: whenever the DFS worklist run is entered with a recursion path
that is a dependency chain whose last element has edges to every worklist id,
every cycle it records is a genuine dependency cycle.  (The top-level call
has an empty path, satisfying the precondition vacuously.) -/
theorem dfsL_sound (todos : List Todo) (fuel : Nat) :
    ∀ (P : List String), P.Chain' (depEdge todos) →
    ∀ (L : List String),
      (∀ p, P.getLast? = some p → ∀ x ∈ L, depEdge todos p x) →
    ∀ (V : List String), ∀ c ∈ (dfsL todos fuel V P L).2, IsDepCycle todos c := by
  induction fuel with
  | zero =>
    intro P _ L _ V c hc
    cases L with
    | nil => rw [dfsL_nil] at hc; simp at hc
    | cons id rest => rw [dfsL_zero] at hc; simp at hc
  | succ fuel ih =>
    intro P hP L
    induction L with
    | nil => intro _ V c hc; rw [dfsL_nil] at hc; simp at hc
    | cons id rest ihr =>
      intro hL V c hc
      have hLrest : ∀ p, P.getLast? = some p → ∀ x ∈ rest, depEdge todos p x :=
        fun p hp x hx => hL p hp x (List.mem_cons_of_mem _ hx)
      by_cases hp : id ∈ P
      · rw [dfsL_mem_path todos fuel V P id rest hp] at hc
        rcases List.mem_cons.mp hc with hceq | hc'
        · subst hceq
          exact recorded_cycle_sound todos P id hP hp
            (fun p hl => hL p hl id (List.mem_cons_self id rest))
        · exact ihr hLrest V c hc'
      · by_cases hv : id ∈ V
        · rw [dfsL_mem_visited todos fuel V P id rest hp hv] at hc
          exact ihr hLrest V c hc
        · rw [dfsL_fresh todos fuel V P id rest hp hv] at hc
          rcases List.mem_append.mp hc with hc1 | hc2
          · refine ih (P ++ [id]) ?_ (depsOf todos id) ?_ (id :: V) c hc1
            · rw [List.chain'_append]
              refine ⟨hP, List.chain'_singleton id, ?_⟩
              intro x hx y hy
              simp only [List.head?_cons, Option.mem_def, Option.some.injEq] at hy
              subst hy
              exact hL x hx id (List.mem_cons_self id rest)
            · intro p hlastp x hx
              rw [List.getLast?_concat] at hlastp
              injection hlastp with h'
              subst h'
              exact hx
          · exact ihr hLrest _ c hc2

/-- Every reported cycle of `detectCircularDependencies` is a genuine
dependency cycle of the population. -/
theorem detect_sound (todos : List Todo) :
    ∀ c ∈ detectCircularDependencies todos, IsDepCycle todos c := by
  intro c hc
  rw [detectCircularDependencies] at hc
  exact dfsL_sound todos (poolCard todos + 1) [] List.chain'_nil
    (todos.map (fun t => t.id)) (fun p hp => by simp at hp) [] c hc

/-- On an acyclic population the detector reports nothing. -/
theorem detect_nil_of_acyclic (todos : List Todo) (h : Acyclic todos) :
    detectCircularDependencies todos = [] := by
  rw [List.eq_nil_iff_forall_not_mem]
  intro c hc
  exact h c (detect_sound todos c hc)

/-! ## Completeness of the DFS: a cyclic population is always reported

The invariant: `V \ P` are the *finished* nodes.  While no cycle has been
recorded, every edge from a finished node leads to a finished node
(`DoneClosed`), and no finished node lies on any dependency cycle
(`NoDoneCycle`). -/

/-- Edges out of finished (visited, off-path) nodes stay visited and
off-path. -/
def DoneClosed (todos : List Todo) (V P : List String) : Prop :=
  ∀ v ∈ V, v ∉ P → ∀ w, depEdge todos v w → w ∈ V ∧ w ∉ P

/-- No node of any dependency cycle is finished. -/
def NoDoneCycle (todos : List Todo) (V P : List String) : Prop :=
  ∀ l, IsDepCycle todos l → ∀ v ∈ l, v ∈ V → v ∈ P

/-- Number of pool ids not yet visited: the bound on remaining DFS descents. -/
def unvisitedCount (todos : List Todo) (V : List String) : Nat :=
  ((idPool todos).toFinset.filter (fun x => x ∉ V)).card

theorem unvisitedCount_mono (todos : List Todo) {V V' : List String}
    (h : ∀ x ∈ V, x ∈ V') : unvisitedCount todos V' ≤ unvisitedCount todos V := by
  apply Finset.card_le_card
  intro x hx
  simp only [Finset.mem_filter] at hx ⊢
  exact ⟨hx.1, fun hxv => hx.2 (h x hxv)⟩

theorem unvisitedCount_lt (todos : List Todo) {V : List String} {id : String}
    (hpool : id ∈ idPool todos) (hv : id ∉ V) :
    unvisitedCount todos (id :: V) < unvisitedCount todos V := by
  apply Finset.card_lt_card
  rw [Finset.ssubset_iff_of_subset]
  · refine ⟨id, ?_, ?_⟩
    · simp only [Finset.mem_filter]
      exact ⟨List.mem_toFinset.mpr hpool, hv⟩
    · simp only [Finset.mem_filter, List.mem_toFinset, not_and, not_not]
      intro _
      exact List.mem_cons_self id V
  · intro x hx
    simp only [Finset.mem_filter] at hx ⊢
    exact ⟨hx.1, fun hxv => hx.2 (List.mem_cons_of_mem _ hxv)⟩

theorem depsOf_subset_pool (todos : List Todo) (a : String) :
    ∀ x ∈ depsOf todos a, x ∈ idPool todos := by
  intro x hx
  unfold depsOf at hx
  cases hfind : findTodo todos a with
  | none => rw [hfind] at hx; simp at hx
  | some t =>
    rw [hfind] at hx
    have ht : t ∈ todos := List.mem_of_find?_eq_some hfind
    unfold idPool
    apply List.mem_append_right
    exact List.mem_flatMap.mpr ⟨t, ht, hx⟩

theorem edge_src_mem_ids (todos : List Todo) {a b : String}
    (h : depEdge todos a b) : a ∈ todos.map (fun t => t.id) := by
  unfold depEdge depsOf at h
  cases hfind : findTodo todos a with
  | none => rw [hfind] at h; simp at h
  | some t =>
    have ht : t ∈ todos := List.mem_of_find?_eq_some hfind
    have hid : t.id = a := by
      have := List.find?_some hfind
      simpa using this
    exact List.mem_map.mpr ⟨t, ht, hid⟩

/-- Forward propagation of a predicate closed under edges, from the head of a
chain to every element. -/
theorem chain'_all_of_head {R : String → String → Prop} {done : String → Prop}
    (step : ∀ a b, done a → R a b → done b) :
    ∀ (l : List String), l.Chain' R → ∀ h, l.head? = some h → done h →
      ∀ w ∈ l, done w := by
  intro l
  induction l with
  | nil => intro _ h hh _ w hw; cases hw
  | cons x xs ih =>
    intro hch h hh hd w hw
    simp only [List.head?_cons, Option.some.injEq] at hh
    subst hh
    rcases List.mem_cons.mp hw with rfl | hw'
    · exact hd
    · cases xs with
      | nil => cases hw'
      | cons y ys =>
        have hxy : R x y := (List.chain'_cons.mp hch).1
        exact ih (List.chain'_cons.mp hch).2 y rfl (step x y hd hxy) w hw'

/-- Propagation from any element of a chain to its last element. -/
theorem chain'_last_done {R : String → String → Prop} {done : String → Prop}
    (step : ∀ a b, done a → R a b → done b) :
    ∀ (l : List String), l.Chain' R → ∀ v ∈ l, done v →
      ∀ z, l.getLast? = some z → done z := by
  intro l
  induction l with
  | nil => intro _ v hv; cases hv
  | cons x xs ih =>
    intro hch v hv hd z hz
    cases xs with
    | nil =>
      simp only [List.getLast?_singleton, Option.some.injEq] at hz
      rcases List.mem_cons.mp hv with rfl | hv'
      · exact hz ▸ hd
      · cases hv'
    | cons y ys =>
      rw [List.getLast?_cons_cons] at hz
      rcases List.mem_cons.mp hv with rfl | hv'
      · have hxy : R v y := (List.chain'_cons.mp hch).1
        exact ih (List.chain'_cons.mp hch).2 y (List.mem_cons_self y ys)
          (step v y hd hxy) z hz
      · exact ih (List.chain'_cons.mp hch).2 v hv' hd z hz

/-- If one node of a dependency cycle is finished, every node of that cycle
is finished. -/
theorem done_cycle_all {todos : List Todo} {V P : List String}
    (hD : DoneClosed todos V P) {l : List String} (hcyc : IsDepCycle todos l)
    {v : String} (hv : v ∈ l) (hvV : v ∈ V) (hvP : v ∉ P) :
    ∀ w ∈ l, w ∈ V ∧ w ∉ P := by
  have step : ∀ a b, (a ∈ V ∧ a ∉ P) → depEdge todos a b → b ∈ V ∧ b ∉ P :=
    fun a b hd he => hD a hd.1 hd.2 b he
  obtain ⟨hlen, hhl, hch⟩ := hcyc
  cases l with
  | nil => cases hv
  | cons x xs =>
    have hh0 : (x :: xs).head? = some x := rfl
    have hlast : (x :: xs).getLast? = some x := by rw [← hhl]; exact hh0
    have hx : x ∈ V ∧ x ∉ P :=
      chain'_last_done step (x :: xs) hch v hv ⟨hvV, hvP⟩ x hlast
    exact chain'_all_of_head step (x :: xs) hch x hh0 hx

/-- Completeness invariant of the DFS run: if no cycle is recorded, the
visited set grows to cover the worklist while staying closed and
cycle-free off the recursion path, and no worklist id lies on the path. -/
theorem dfsL_complete (todos : List Todo) (fuel : Nat) :
    ∀ (P V L : List String),
      (∀ x ∈ L, x ∈ idPool todos) →
      (∀ x ∈ P, x ∈ V) →
      DoneClosed todos V P →
      NoDoneCycle todos V P →
      unvisitedCount todos V < fuel →
      (dfsL todos fuel V P L).2 = [] →
      (∀ x ∈ V, x ∈ (dfsL todos fuel V P L).1) ∧
      (∀ x ∈ L, x ∈ (dfsL todos fuel V P L).1) ∧
      DoneClosed todos (dfsL todos fuel V P L).1 P ∧
      NoDoneCycle todos (dfsL todos fuel V P L).1 P ∧
      (∀ x ∈ L, x ∉ P) := by
  induction fuel with
  | zero =>
    intro P V L _ _ _ _ hcount _
    exact absurd hcount (Nat.not_lt_zero _)
  | succ fuel ih =>
    intro P V L
    induction L generalizing V with
    | nil =>
      intro _ _ hD hN _ _
      rw [dfsL_nil]
      refine ⟨fun x hx => hx, ?_, hD, hN, ?_⟩ <;> intro x hx <;> cases hx
    | cons id rest ihr =>
      intro hpool hPV hD hN hcount hres
      by_cases hp : id ∈ P
      · exfalso
        rw [dfsL_mem_path todos fuel V P id rest hp] at hres
        simp at hres
      · by_cases hv : id ∈ V
        · rw [dfsL_mem_visited todos fuel V P id rest hp hv] at hres ⊢
          obtain ⟨hVm, hLm, hD', hN', hnp⟩ :=
            ihr V (fun x hx => hpool x (List.mem_cons_of_mem _ hx)) hPV hD hN hcount hres
          refine ⟨hVm, ?_, hD', hN', ?_⟩
          · intro x hx
            rcases List.mem_cons.mp hx with rfl | hx'
            · exact hVm x hv
            · exact hLm x hx'
          · intro x hx
            rcases List.mem_cons.mp hx with rfl | hx'
            · exact hp
            · exact hnp x hx'
        · have hidpool : id ∈ idPool todos := hpool id (List.mem_cons_self id rest)
          rw [dfsL_fresh todos fuel V P id rest hp hv] at hres ⊢
          have hres' : (dfsL todos fuel (id :: V) (P ++ [id]) (depsOf todos id)).2 = [] ∧
              (dfsL todos (fuel + 1)
                (dfsL todos fuel (id :: V) (P ++ [id]) (depsOf todos id)).1 P rest).2 = [] :=
            List.append_eq_nil.mp hres
          -- the inner descent, by the outer induction hypothesis
          obtain ⟨m1, l1, D1, N1, np1⟩ := ih (P ++ [id]) (id :: V) (depsOf todos id)
            (depsOf_subset_pool todos id)
            (by
              intro x hx
              rcases List.mem_append.mp hx with hx' | hx'
              · exact List.mem_cons_of_mem _ (hPV x hx')
              · simp only [List.mem_singleton] at hx'
                subst hx'
                exact List.mem_cons_self x V)
            (by
              intro v hvmem hvnot w hw
              rcases List.mem_cons.mp hvmem with rfl | hvV
              · exact absurd (List.mem_append_right _ (List.mem_singleton.mpr rfl)) hvnot
              · have hvP : v ∉ P := fun h => hvnot (List.mem_append_left _ h)
                obtain ⟨h1, h2⟩ := hD v hvV hvP w hw
                refine ⟨List.mem_cons_of_mem _ h1, ?_⟩
                intro hc
                rcases List.mem_append.mp hc with hc' | hc'
                · exact h2 hc'
                · simp only [List.mem_singleton] at hc'
                  subst hc'
                  exact hv h1)
            (by
              intro l hcyc v hvl hvV
              rcases List.mem_cons.mp hvV with rfl | hvV'
              · exact List.mem_append_right _ (List.mem_singleton.mpr rfl)
              · exact List.mem_append_left _ (hN l hcyc v hvl hvV'))
            (by
              have := unvisitedCount_lt todos hidpool hv
              omega)
            hres'.1
          set V1 := (dfsL todos fuel (id :: V) (P ++ [id]) (depsOf todos id)).1 with hV1
          -- popping `id` from the path: the invariants transfer to path `P`
          have hidV1 : id ∈ V1 := m1 id (List.mem_cons_self id V)
          have D1' : DoneClosed todos V1 P := by
            intro v hvr hvP w hw
            by_cases hvid : v = id
            · subst hvid
              have hw' : w ∈ depsOf todos v := hw
              refine ⟨l1 w hw', fun hwp => np1 w hw' (List.mem_append_left _ hwp)⟩
            · have hvP' : v ∉ P ++ [id] := by
                intro hc
                rcases List.mem_append.mp hc with hc' | hc'
                · exact hvP hc'
                · exact hvid (List.mem_singleton.mp hc')
              obtain ⟨h1, h2⟩ := D1 v hvr hvP' w hw
              exact ⟨h1, fun hwp => h2 (List.mem_append_left _ hwp)⟩
          have N1' : NoDoneCycle todos V1 P := by
            intro l hcyc v hvl hvr
            have hvPid : v ∈ P ++ [id] := N1 l hcyc v hvl hvr
            rcases List.mem_append.mp hvPid with hvP' | hvP'
            · exact hvP'
            · exfalso
              have hvid : v = id := List.mem_singleton.mp hvP'
              have hidl : id ∈ l := hvid ▸ hvl
              have hall := done_cycle_all D1' hcyc hidl hidV1 hp
              by_cases hone : ∀ w ∈ l, w = id
              · obtain ⟨hlen, hh, hch⟩ := hcyc
                cases l with
                | nil => simp at hlen
                | cons a l2 =>
                  cases l2 with
                  | nil => simp at hlen
                  | cons b l3 =>
                    have hab : depEdge todos a b := (List.chain'_cons.mp hch).1
                    have ha : a = id := hone a (List.mem_cons_self _ _)
                    have hb : b = id :=
                      hone b (List.mem_cons_of_mem _ (List.mem_cons_self _ _))
                    rw [ha, hb] at hab
                    have hself : id ∈ depsOf todos id := hab
                    exact np1 id hself
                      (List.mem_append_right _ (List.mem_singleton.mpr rfl))
              · push_neg at hone
                obtain ⟨w, hwl, hwid⟩ := hone
                obtain ⟨hwV1, hwP⟩ := hall w hwl
                have hwPid : w ∈ P ++ [id] := N1 l hcyc w hwl hwV1
                rcases List.mem_append.mp hwPid with hc' | hc'
                · exact hwP hc'
                · exact hwid (List.mem_singleton.mp hc')
          -- the sibling continuation, by the inner induction hypothesis
          obtain ⟨m2, l2, D2, N2, np2⟩ := ihr V1
            (fun x hx => hpool x (List.mem_cons_of_mem _ hx))
            (fun x hx => m1 x (List.mem_cons_of_mem _ (hPV x hx)))
            D1' N1'
            (by
              have h1 : unvisitedCount todos V1 ≤ unvisitedCount todos (id :: V) :=
                unvisitedCount_mono todos m1
              have h2 := unvisitedCount_lt todos hidpool hv
              omega)
            hres'.2
          refine ⟨?_, ?_, D2, N2, ?_⟩
          · intro x hx
            exact m2 x (m1 x (List.mem_cons_of_mem _ hx))
          · intro x hx
            rcases List.mem_cons.mp hx with rfl | hx'
            · exact m2 x hidV1
            · exact l2 x hx'
          · intro x hx
            rcases List.mem_cons.mp hx with rfl | hx'
            · exact hp
            · exact np2 x hx'

/-- If the detector reports nothing, the population is acyclic. -/
theorem acyclic_of_detect_nil (todos : List Todo)
    (h : detectCircularDependencies todos = []) : Acyclic todos := by
  intro l hcyc
  rw [detectCircularDependencies] at h
  obtain ⟨-, hids, -, hN, -⟩ := dfsL_complete todos (poolCard todos + 1)
    [] [] (todos.map (fun t => t.id))
    (fun x hx => List.mem_append_left _ hx)
    (fun x hx => by cases hx)
    (fun v hv => by cases hv)
    (fun l' _ v _ hv => by cases hv)
    (by
      have : unvisitedCount todos [] ≤ poolCard todos := by
        unfold unvisitedCount poolCard
        apply Finset.card_le_card
        exact Finset.filter_subset _ _
      omega)
    h
  -- a cycle has an edge, whose source is a todo id, hence visited but off-path
  obtain ⟨hlen, hh, hch⟩ := hcyc
  cases l with
  | nil => simp at hlen
  | cons a l2 =>
    cases l2 with
    | nil => simp at hlen
    | cons b l3 =>
      have hab : depEdge todos a b := (List.chain'_cons.mp hch).1
      have ha : a ∈ todos.map (fun t => t.id) := edge_src_mem_ids todos hab
      have haV := hids a ha
      have hfalse : a ∈ ([] : List String) :=
        hN (a :: b :: l3) ⟨hlen, hh, hch⟩ a (List.mem_cons_self _ _) haV
      cases hfalse

/-- A population containing any dependency cycle is reported. -/
theorem detect_ne_nil_of_cycle (todos : List Todo) {l : List String}
    (h : IsDepCycle todos l) : detectCircularDependencies todos ≠ [] := by
  intro hnil
  exact acyclic_of_detect_nil todos hnil l h

/-! ## The hypothetical population of `validateDependencies` -/

theorem depsOf_setDepsFirst_self (todoId : String) (deps : List String) :
    ∀ (todos : List Todo), todos.any (fun t => t.id == todoId) = true →
      depsOf (setDepsFirst todos todoId deps) todoId = deps := by
  intro todos
  induction todos with
  | nil => intro h; simp at h
  | cons t ts ih =>
    intro h
    by_cases ht : t.id = todoId
    · unfold setDepsFirst
      rw [if_pos ht]
      unfold depsOf findTodo
      rw [List.find?_cons_of_pos _ (by simpa using ht)]
      simp
    · unfold setDepsFirst
      rw [if_neg ht]
      have h' : ts.any (fun x => x.id == todoId) = true := by
        rw [List.any_cons] at h
        rcases Bool.or_eq_true_iff.mp h with h1 | h1
        · exact absurd (by simpa using h1) ht
        · exact h1
      unfold depsOf findTodo
      rw [List.find?_cons_of_neg _ (by simpa using ht)]
      exact ih h'

theorem depsOf_append_temp (todoId : String) (deps : List String)
    (todos : List Todo) (h : todos.any (fun t => t.id == todoId) = false) :
    depsOf (todos ++ [tempTodo todoId deps]) todoId = deps := by
  unfold depsOf findTodo
  rw [List.find?_append]
  have hnone : todos.find? (fun t => t.id == todoId) = none := by
    rw [List.find?_eq_none]
    intro x hx hxid
    have hany : todos.any (fun t => t.id == todoId) = true :=
      List.any_eq_true.mpr ⟨x, hx, hxid⟩
    rw [h] at hany
    cases hany
  rw [hnone, Option.none_or]
  rw [List.find?_cons_of_pos _ (by simp [tempTodo])]
  simp [tempTodo]

/-- In the hypothetical population, the node `todoId` carries exactly the
candidate dependency list. -/
theorem depsOf_hypothetical_self (todoId : String) (deps : List String)
    (allTodos : List Todo) :
    depsOf (hypotheticalPopulation todoId deps allTodos) todoId = deps := by
  unfold hypotheticalPopulation
  by_cases h : allTodos.any (fun t => t.id == todoId) = true
  · rw [if_pos h]
    exact depsOf_setDepsFirst_self todoId deps allTodos h
  · rw [if_neg h]
    exact depsOf_append_temp todoId deps allTodos (by
      cases hb : allTodos.any (fun t => t.id == todoId)
      · rfl
      · exact absurd hb h)

theorem findTodo_setDepsFirst_other (todoId : String) (deps : List String)
    (a : String) (ha : a ≠ todoId) :
    ∀ (todos : List Todo),
      findTodo (setDepsFirst todos todoId deps) a = findTodo todos a := by
  intro todos
  induction todos with
  | nil => rfl
  | cons t ts ih =>
    by_cases ht : t.id = todoId
    · unfold setDepsFirst
      rw [if_pos ht]
      unfold findTodo
      have hne : (t.id == a) = false := by
        simp only [beq_eq_false_iff_ne, ne_eq]
        intro h
        exact ha (h ▸ ht.symm ▸ rfl)
      rw [List.find?_cons_of_neg _ (by simpa using hne),
        List.find?_cons_of_neg _ (by simpa using hne)]
    · unfold setDepsFirst
      rw [if_neg ht]
      unfold findTodo
      by_cases hta : t.id = a
      · rw [List.find?_cons_of_pos _ (by simpa using hta),
          List.find?_cons_of_pos _ (by simpa using hta)]
      · rw [List.find?_cons_of_neg _ (by simpa using hta),
          List.find?_cons_of_neg _ (by simpa using hta)]
        exact ih

/-- Every node other than `todoId` keeps its dependencies in the hypothetical
population. -/
theorem depsOf_hypothetical_other (todoId : String) (deps : List String)
    (allTodos : List Todo) (a : String) (ha : a ≠ todoId) :
    depsOf (hypotheticalPopulation todoId deps allTodos) a = depsOf allTodos a := by
  unfold hypotheticalPopulation
  by_cases h : allTodos.any (fun t => t.id == todoId) = true
  · rw [if_pos h]
    unfold depsOf
    rw [findTodo_setDepsFirst_other todoId deps a ha]
  · rw [if_neg h]
    unfold depsOf findTodo
    rw [List.find?_append]
    have htemp : [tempTodo todoId deps].find? (fun t => t.id == a) = none := by
      rw [List.find?_eq_none]
      intro x hx hxid
      have hxeq : x = tempTodo todoId deps := List.mem_singleton.mp hx
      rw [hxeq] at hxid
      have heq : todoId = a := by simpa [tempTodo] using hxid
      exact ha heq.symm
    rw [htemp, Option.or_none]

/-- Pointwise-on-members strengthening of `Chain'.imp`. -/
theorem chain'_imp_mem {R S : String → String → Prop} :
    ∀ (l : List String), l.Chain' R → (∀ a ∈ l, ∀ b, R a b → S a b) →
      l.Chain' S := by
  intro l
  induction l with
  | nil => intro _ _; exact List.chain'_nil
  | cons x xs ih =>
    intro hch himp
    cases xs with
    | nil => exact List.chain'_singleton x
    | cons y ys =>
      rw [List.chain'_cons] at hch ⊢
      exact ⟨himp x (List.mem_cons_self _ _) y hch.1,
        ih hch.2 (fun a ha b hr => himp a (List.mem_cons_of_mem _ ha) b hr)⟩

/-- Over an acyclic base population, every cycle of the hypothetical
population passes through `todoId` (the only node whose edges changed). -/
theorem hypo_cycle_through (todoId : String) (deps : List String)
    (allTodos : List Todo) (hA : Acyclic allTodos) {l : List String}
    (hcyc : IsDepCycle (hypotheticalPopulation todoId deps allTodos) l) :
    todoId ∈ l := by
  by_contra hno
  apply hA l
  obtain ⟨hlen, hh, hch⟩ := hcyc
  refine ⟨hlen, hh, chain'_imp_mem l hch ?_⟩
  intro a ha b hr
  have hne : a ≠ todoId := fun h => hno (h ▸ ha)
  have hr' : b ∈ depsOf (hypotheticalPopulation todoId deps allTodos) a := hr
  rw [depsOf_hypothetical_other todoId deps allTodos a hne] at hr'
  exact hr'

/-- Every node of a dependency cycle has an outgoing dependency edge. -/
theorem cycle_mem_out_edge {todos : List Todo} {l : List String}
    (hcyc : IsDepCycle todos l) {v : String} (hv : v ∈ l) :
    ∃ w, depEdge todos v w := by
  obtain ⟨hlen, hh, hch⟩ := hcyc
  rw [List.chain'_iff_get] at hch
  obtain ⟨⟨i, hi⟩, hgi⟩ := List.mem_iff_get.mp hv
  by_cases hlast : i < l.length - 1
  · exact ⟨l.get ⟨i + 1, by omega⟩, hgi ▸ hch i hlast⟩
  · have hi' : i = l.length - 1 := by omega
    have h0 : 0 < l.length - 1 := by omega
    have hhd : l.head? = some (l.get ⟨0, by omega⟩) := by
      cases l with
      | nil => simp at hi
      | cons x xs => rfl
    have hlst : l.getLast? = some (l.get ⟨i, hi⟩) := by
      rw [List.getLast?_eq_getElem?, ← hi', List.getElem?_eq_getElem hi]
      simp [List.get_eq_getElem]
    have hv0 : l.get ⟨0, by omega⟩ = v := by
      rw [hh, hlst] at hhd
      injection hhd with h'
      rw [← h', hgi]
    exact ⟨l.get ⟨1, by omega⟩, hv0 ▸ hch 0 h0⟩

/-! ## The detector on a single self-depending task -/

/-- Scanning the dependency list of the sole task of a singleton population,
with the task itself on the recursion path: each occurrence of its own id
records the self-loop `[id, id]`, every other id records nothing. -/
theorem dfsL_single_scan (t : Todo) :
    ∀ (rest : List String) (fuel : Nat) (V : List String),
      (dfsL [t] (fuel + 1) V [t.id] rest).2 =
        List.replicate (rest.count t.id) [t.id, t.id] := by
  intro rest
  induction rest with
  | nil =>
    intro fuel V
    rw [dfsL_nil]
    simp
  | cons d ds ih =>
    intro fuel V
    by_cases hd : d = t.id
    · subst hd
      rw [dfsL_mem_path [t] fuel V [t.id] t.id ds (List.mem_singleton.mpr rfl)]
      have hidx : jsIndexOf [t.id] t.id = 0 := by simp [jsIndexOf]
      simp only [hidx, List.drop_zero, List.singleton_append]
      rw [ih fuel V]
      rw [List.count_cons_self, List.replicate_succ]
    · have hdp : d ∉ [t.id] := by simp [hd]
      have hcnt : (d :: ds).count t.id = ds.count t.id := by
        rw [List.count_cons_of_ne]
        exact fun h => hd h.symm
      by_cases hv : d ∈ V
      · rw [dfsL_mem_visited [t] fuel V [t.id] d ds hdp hv, ih fuel V, hcnt]
      · rw [dfsL_fresh [t] fuel V [t.id] d ds hdp hv]
        have hdeps0 : depsOf [t] d = [] := by
          unfold depsOf findTodo
          rw [List.find?_cons_of_neg _ (by simpa using fun h => hd h.symm)]
          rfl
        rw [hdeps0, dfsL_nil]
        simp only [List.nil_append]
        rw [ih fuel (d :: V), hcnt]

/-- On a singleton population whose task lists its own id among its
dependencies, the detector reports one `[id, id]` self-loop per occurrence. -/
theorem detect_single (t : Todo) (ds : List String)
    (hdeps : t.dependencies = some ds) :
    detectCircularDependencies [t] =
      List.replicate (ds.count t.id) [t.id, t.id] := by
  have hpool : t.id ∈ idPool [t] := by
    unfold idPool
    exact List.mem_append_left _ (by simp)
  have hcard : 1 ≤ poolCard [t] := by
    unfold poolCard
    exact Finset.card_pos.mpr ⟨t.id, List.mem_toFinset.mpr hpool⟩
  obtain ⟨k, hk⟩ : ∃ k, poolCard [t] = k + 1 := ⟨poolCard [t] - 1, by omega⟩
  unfold detectCircularDependencies
  rw [hk]
  have hmap : ([t].map (fun x => x.id)) = [t.id] := rfl
  rw [hmap]
  rw [dfsL_fresh [t] (k + 1) [] [] t.id [] (by simp) (by simp)]
  have hdeps1 : depsOf [t] t.id = ds := by
    unfold depsOf findTodo
    rw [List.find?_cons_of_pos _ (by simp)]
    simp [hdeps]
  rw [hdeps1]
  simp only [List.nil_append]
  rw [dfsL_nil]
  simp only [List.append_nil]
  exact dfsL_single_scan t ds k [t.id]

/-! ## Concrete populations used by witnesses and counterexamples -/

/-- A dependency-free task. -/
def todoA : Todo := { id := "1", title := "a", completed := false, createdAt := "" }

/-- A task depending on itself once. -/
def todoSelf : Todo := { todoA with dependencies := some ["1"] }

/-- A task listing its own id twice among its dependencies. -/
def todoSelf2 : Todo := { todoA with dependencies := some ["1", "1"] }

def todoV : Todo :=
  { id := "v", title := "t", completed := false, createdAt := "",
    dependencies := some ["u", "a"] }

def todoU : Todo :=
  { id := "u", title := "t", completed := false, createdAt := "",
    dependencies := some ["v"] }

def todoW : Todo := { id := "a", title := "t", completed := false, createdAt := "" }

/-- A population that already carries the cycle `v -> u -> v`, plus the
dependency-free task `a`. -/
def popCyc : List Todo := [todoV, todoU, todoW]

/-! ## Claims about the dependency resolver -/

/-- **C1** (amended).  `validateDependencies` throws a dependency-not-found
error iff some entry of `deps` is not the id of any task in `allTodos`.  A
circular-dependency error always implies a cycle through `todoId` in the
hypothetical population (so cycles not involving `todoId` never cause an
error); and, provided the base population is acyclic — the invariant every
validated mutation maintains — a cycle through `todoId` in the hypothetical
population conversely guarantees the circular-dependency error. -/
theorem claim1_validateDependencies (todoId : String) (deps : List String)
    (allTodos : List Todo) :
    ((∃ d, validateDependencies todoId deps allTodos = .error (.depNotFound d)) ↔
      ∃ d ∈ deps, ∀ t ∈ allTodos, t.id ≠ d) ∧
    (∀ c, validateDependencies todoId deps allTodos = .error (.circular c) →
      HasCycleThrough (hypotheticalPopulation todoId deps allTodos) todoId) ∧
    (Acyclic allTodos → (∀ d ∈ deps, ∃ t ∈ allTodos, t.id = d) →
      HasCycleThrough (hypotheticalPopulation todoId deps allTodos) todoId →
      ∃ c, validateDependencies todoId deps allTodos = .error (.circular c)) := by
  by_cases hemp : deps.isEmpty
  · have hval : validateDependencies todoId deps allTodos = .ok () := by
      unfold validateDependencies
      rw [if_pos hemp]
    have hdnil : deps = [] := List.isEmpty_iff.mp hemp
    refine ⟨⟨?_, ?_⟩, ?_, ?_⟩
    · rintro ⟨d, hd⟩
      rw [hval] at hd
      cases hd
    · rintro ⟨d, hd, -⟩
      rw [hdnil] at hd
      cases hd
    · intro c hc
      rw [hval] at hc
      cases hc
    · intro hA hp hcyc
      exfalso
      obtain ⟨l, hl, hmem⟩ := hcyc
      obtain ⟨w, hw⟩ := cycle_mem_out_edge hl hmem
      have hw' : w ∈ depsOf (hypotheticalPopulation todoId deps allTodos) todoId := hw
      rw [depsOf_hypothetical_self, hdnil] at hw'
      cases hw'
  · cases hfind : deps.find? (fun depId => !(allTodos.any (fun t => t.id == depId))) with
    | some d0 =>
      have hval : validateDependencies todoId deps allTodos =
          .error (.depNotFound d0) := by
        unfold validateDependencies
        rw [if_neg hemp, hfind]
      refine ⟨⟨?_, ?_⟩, ?_, ?_⟩
      · rintro ⟨-, -⟩
        refine ⟨d0, List.mem_of_find?_eq_some hfind, ?_⟩
        intro t ht hteq
        have hp0 := List.find?_some hfind
        rw [Bool.not_eq_true'] at hp0
        have hany : allTodos.any (fun x => x.id == d0) = true :=
          List.any_eq_true.mpr ⟨t, ht, by simp [hteq]⟩
        rw [hp0] at hany
        cases hany
      · intro _
        exact ⟨d0, hval⟩
      · intro c hc
        rw [hval] at hc
        simp at hc
      · intro hA hp hcyc
        exfalso
        have hd0mem := List.mem_of_find?_eq_some hfind
        have hp0 := List.find?_some hfind
        rw [Bool.not_eq_true'] at hp0
        obtain ⟨t, ht, hteq⟩ := hp d0 hd0mem
        have hany : allTodos.any (fun x => x.id == d0) = true :=
          List.any_eq_true.mpr ⟨t, ht, by simp [hteq]⟩
        rw [hp0] at hany
        cases hany
    | none =>
      have hval : validateDependencies todoId deps allTodos =
          (match (detectCircularDependencies
              (hypotheticalPopulation todoId deps allTodos)).find?
              (fun cycle => cycle.contains todoId) with
           | some cycle => .error (.circular cycle)
           | none => .ok ()) := by
        unfold validateDependencies
        rw [if_neg hemp, hfind]
      refine ⟨⟨?_, ?_⟩, ?_, ?_⟩
      · rintro ⟨d, hd⟩
        rw [hval] at hd
        exfalso
        cases hcf : (detectCircularDependencies
            (hypotheticalPopulation todoId deps allTodos)).find?
            (fun cycle => cycle.contains todoId) with
        | some cyc => rw [hcf] at hd; simp at hd
        | none => rw [hcf] at hd; simp at hd
      · rintro ⟨d, hd, hall⟩
        exfalso
        have hnot := List.find?_eq_none.mp hfind d hd
        have hany : allTodos.any (fun t => t.id == d) = true := by
          cases hb : allTodos.any (fun t => t.id == d) with
          | true => rfl
          | false => exact absurd (by rw [hb]; rfl) hnot
        obtain ⟨t, ht, hteq⟩ := List.any_eq_true.mp hany
        exact hall t ht (by simpa using hteq)
      · intro c hc
        rw [hval] at hc
        cases hcf : (detectCircularDependencies
            (hypotheticalPopulation todoId deps allTodos)).find?
            (fun cycle => cycle.contains todoId) with
        | none => rw [hcf] at hc; simp at hc
        | some cyc =>
          rw [hcf] at hc
          simp only [Except.error.injEq, VError.circular.injEq] at hc
          have hcmem := List.mem_of_find?_eq_some hcf
          have hcont := List.find?_some hcf
          have hcycle := detect_sound _ cyc hcmem
          have hmem : todoId ∈ cyc := by simpa using hcont
          exact ⟨cyc, hcycle, hmem⟩
      · intro hA hpres hcyc
        obtain ⟨l, hl, -⟩ := hcyc
        have hne := detect_ne_nil_of_cycle _ hl
        cases hdet : detectCircularDependencies
            (hypotheticalPopulation todoId deps allTodos) with
        | nil => exact absurd hdet hne
        | cons c0 cs =>
          have hc0mem : c0 ∈ detectCircularDependencies
              (hypotheticalPopulation todoId deps allTodos) := by
            rw [hdet]
            exact List.mem_cons_self _ _
          have hc0 := detect_sound _ c0 hc0mem
          have hthrough : todoId ∈ c0 :=
            hypo_cycle_through todoId deps allTodos hA hc0
          have hcont : (fun cycle => List.contains cycle todoId) c0 = true := by
            simpa using hthrough
          refine ⟨c0, ?_⟩
          rw [hval, hdet, List.find?_cons_of_pos cs hcont]

/-- **C1 counterexample**: with the base population already carrying the
cycle `v -> u -> v` (where `v` also depends on `a`), validating the
dependency list `["u"]` for the existing task `a` succeeds, although the
hypothetical population contains the cycle `a -> u -> v -> a` through `a` —
the claimed "iff" fails without an acyclicity precondition. -/
theorem claim1_counterexample :
    validateDependencies "a" ["u"] popCyc = .ok () ∧
    IsDepCycle (hypotheticalPopulation "a" ["u"] popCyc) ["a", "u", "v", "a"] ∧
    "a" ∈ ["a", "u", "v", "a"] := by
  refine ⟨by decide, by decide, by decide⟩

/-- **C1 witness**: on the acyclic singleton base `[todoA]`, making task
`"1"` depend on itself is rejected with a circular-dependency error. -/
theorem claim1_witness :
    ∃ c, validateDependencies "1" ["1"] [todoA] = .error (.circular c) := by
  refine (claim1_validateDependencies "1" ["1"] [todoA]).2.2 ?_ ?_ ?_
  · exact acyclic_of_detect_nil [todoA] (by decide)
  · intro d hd
    refine ⟨todoA, List.mem_singleton.mpr rfl, ?_⟩
    rcases List.mem_singleton.mp hd with rfl
    rfl
  · exact ⟨["1", "1"], by decide, by decide⟩

/-- **C6** (amended).  On an acyclic population the detector reports no
cycles; on a population consisting of a single task whose dependency list
contains its own id exactly once, it reports exactly one cycle, the
self-loop `[id, id]`, which contains the task's id.  (With the id listed
`n` times, one such cycle is reported per occurrence, which is why the
single-occurrence proviso is needed.) -/
theorem claim6_detectCircularDependencies :
    (∀ todos, Acyclic todos → detectCircularDependencies todos = []) ∧
    (∀ (t : Todo) (ds : List String), t.dependencies = some ds →
      ds.count t.id = 1 →
      detectCircularDependencies [t] = [[t.id, t.id]] ∧ t.id ∈ [t.id, t.id]) := by
  refine ⟨fun todos hA => detect_nil_of_acyclic todos hA, ?_⟩
  intro t ds hdeps hcount
  rw [detect_single t ds hdeps, hcount]
  exact ⟨rfl, List.mem_cons_self _ _⟩

/-- **C6 counterexample**: a single task listing its own id twice yields two
recorded cycles, not exactly one. -/
theorem claim6_counterexample :
    todoSelf2.dependencies = some ["1", "1"] ∧ todoSelf2.id ∈ ["1", "1"] ∧
    (detectCircularDependencies [todoSelf2]).length ≠ 1 := by
  refine ⟨rfl, by decide, by decide⟩

/-- **C6 witness**: the acyclic singleton `[todoA]` yields no cycles, and the
task depending on itself exactly once yields the single self-loop. -/
theorem claim6_witness :
    detectCircularDependencies [todoA] = [] ∧
    detectCircularDependencies [todoSelf] = [["1", "1"]] := by
  constructor
  · exact claim6_detectCircularDependencies.1 [todoA]
      (acyclic_of_detect_nil [todoA] (by decide))
  · exact (claim6_detectCircularDependencies.2 todoSelf ["1"] rfl (by decide)).1

/-- A completed copy of `todoA`. -/
def todoDone : Todo := { todoA with completed := true }

/-- A task depending on task `"1"`. -/
def todoDep : Todo :=
  { id := "2", title := "t", completed := false, createdAt := "",
    dependencies := some ["1"] }

/-- **C5**.  `isTaskReady` is true when `dependencies` is absent or empty;
false as soon as some dependency id has no matching task (fails closed);
and with all dependencies matched it is true exactly when every referenced
dependency task is completed or execution-completed. -/
theorem claim5_isTaskReady (t : Todo) (todos : List Todo) :
    ((t.dependencies = none ∨ t.dependencies = some []) →
      isTaskReady t todos = true) ∧
    (∀ ds, t.dependencies = some ds →
      (((∃ d ∈ ds, findTodo todos d = none) → isTaskReady t todos = false) ∧
       ((∀ d ∈ ds, findTodo todos d ≠ none) →
         (isTaskReady t todos = true ↔
           ∀ d ∈ ds, ∀ u, findTodo todos d = some u → isDone u = true)))) := by
  constructor
  · rintro (h | h) <;> simp [isTaskReady, h]
  · intro ds hds
    have hform : isTaskReady t todos = (ds.isEmpty || ds.all (satisfiedDep todos)) := by
      unfold isTaskReady
      rw [hds]
    constructor
    · rintro ⟨d, hd, hnone⟩
      rw [hform]
      have hne : ds.isEmpty = false := by
        cases ds
        · cases hd
        · rfl
      have hsat : satisfiedDep todos d = false := by
        unfold satisfiedDep
        rw [hnone]
      have hall : ds.all (satisfiedDep todos) = false := by
        rw [List.all_eq_false]
        exact ⟨d, hd, by simp [hsat]⟩
      rw [hne, hall]
      rfl
    · intro hpres
      rw [hform]
      constructor
      · intro h d hd u hu
        rcases Bool.or_eq_true_iff.mp h with hemp | hall
        · cases ds
          · cases hd
          · simp at hemp
        · have hsat := List.all_eq_true.mp hall d hd
          unfold satisfiedDep at hsat
          rw [hu] at hsat
          exact hsat
      · intro h
        apply Bool.or_eq_true_iff.mpr
        right
        apply List.all_eq_true.mpr
        intro d hd
        cases hf : findTodo todos d with
        | none => exact absurd hf (hpres d hd)
        | some u =>
          have hdone := h d hd u hf
          unfold satisfiedDep
          rw [hf]
          exact hdone

/-- **C5 witness**: a task depending on `"1"` is ready when the population
holds the completed task `"1"`, and not ready in the empty population. -/
theorem claim5_witness :
    isTaskReady todoDep [todoDone] = true ∧ isTaskReady todoDep [] = false := by
  constructor
  · apply (((claim5_isTaskReady todoDep [todoDone]).2 ["1"] rfl).2 ?_).mpr ?_
    · intro d hd
      rcases List.mem_singleton.mp hd with rfl
      intro hc
      cases hc
    · intro d hd u hu
      rcases List.mem_singleton.mp hd with rfl
      have hu' : some todoDone = some u := hu
      injection hu' with hu''
      rw [← hu'']
      rfl
  · exact ((claim5_isTaskReady todoDep []).2 ["1"] rfl).1
      ⟨"1", List.mem_singleton.mpr rfl, rfl⟩

/-! ## Claims about the execution state machine -/

/-- **C2**.  The transition table accepts exactly the eight listed pairs, and
a rejected transition yields `success = false` with the message naming both
states, returns the task unchanged, and writes nothing back. -/
theorem claim2_isValidTransition :
    (∀ s d, isValidTransition s d = true ↔
      (s, d) ∈ ([(.pending, .ready), (.pending, .running), (.ready, .running),
        (.ready, .pending), (.running, .completed), (.running, .failed),
        (.running, .pending), (.failed, .pending)] :
        List (ExecutionState × ExecutionState))) ∧
    (∀ (todo : Todo) (request : StateTransitionRequest),
      isValidTransition (currentStateOf todo) request.newState = false →
      performStateTransition todo request =
        ({ success := false, updatedTodo := todo,
           message := s!"Invalid state transition from {(currentStateOf todo).str} to {request.newState.str}" },
         none)) := by
  constructor
  · intro s d
    cases s <;> cases d <;> decide
  · intro todo request h
    dsimp only [performStateTransition]
    rw [h]
    rfl

/-- **C2 witness**: requesting `pending -> completed` on a status-free task
is rejected without writing an update. -/
theorem claim2_witness :
    performStateTransition todoA { todoId := "1", newState := .completed } =
      ({ success := false, updatedTodo := todoA,
         message := "Invalid state transition from pending to completed" },
       none) := by
  rw [claim2_isValidTransition.2 todoA { todoId := "1", newState := .completed }
    (by decide)]
  decide

/-- **C3**.  On a validated transition, `attempts` is incremented exactly
when the destination is `running` or the transition is `failed -> pending`
(absent counts as `0`), and `lastError` is set verbatim when an error string
is supplied, cleared on an error-free completion or `failed -> pending`
retry, and preserved otherwise. -/
theorem claim3_attempts_lastError (todo : Todo) (request : StateTransitionRequest)
    (hvalid : isValidTransition (currentStateOf todo) request.newState = true) :
    ∃ st, (performStateTransition todo request).2 = some st ∧
      ((request.newState = .running ∨
          (currentStateOf todo = .failed ∧ request.newState = .pending)) →
        st.attempts = some ((currentStatusOf todo).attempts.getD 0 + 1)) ∧
      (¬(request.newState = .running ∨
          (currentStateOf todo = .failed ∧ request.newState = .pending)) →
        st.attempts = some ((currentStatusOf todo).attempts.getD 0)) ∧
      (∀ e, request.error = some e → st.lastError = some e) ∧
      (request.error = none → request.newState = .completed →
        st.lastError = none) ∧
      (request.error = none → currentStateOf todo = .failed →
        request.newState = .pending → st.lastError = none) ∧
      (request.error = none → request.newState ≠ .completed →
        ¬(currentStateOf todo = .failed ∧ request.newState = .pending) →
        st.lastError = (currentStatusOf todo).lastError) := by
  dsimp only [performStateTransition]
  rw [hvalid]
  simp only [Bool.not_true, Bool.false_eq_true, if_false]
  refine ⟨_, rfl, ?_, ?_, ?_, ?_, ?_, ?_⟩
  · intro h
    simp only [if_pos h]
  · intro h
    simp only [if_neg h]
  · intro e he
    simp [he]
  · intro he hc
    simp [he, hc]
  · intro he hf hp
    simp [he, hf, hp]
  · intro he hc hfp
    simp [he, hc, hfp]

/-- A task currently `running` on its first attempt. -/
def todoRun : Todo :=
  { todoA with executionStatus := some { state := .running, attempts := some 1 } }

/-- A task currently `failed` with a recorded error. -/
def failedStatus : ExecStatus :=
  { state := .failed, lastError := some "boom", attempts := some 1 }

def todoFailed : Todo := { todoA with executionStatus := some failedStatus }

/-- **C3 witness**: `pending -> running` takes `attempts` from absent to `1`
(error stays clear); `failed -> pending` without an error increments
`attempts` to `2` and clears `lastError`. -/
theorem claim3_witness :
    (∃ st, (performStateTransition todoA
        { todoId := "1", newState := .running }).2 = some st ∧
      st.attempts = some 1 ∧ st.lastError = none) ∧
    (∃ st, (performStateTransition todoFailed
        { todoId := "1", newState := .pending }).2 = some st ∧
      st.attempts = some 2 ∧ st.lastError = none) := by
  constructor
  · obtain ⟨st, hst, hinc, -, -, -, -, hkeep⟩ :=
      claim3_attempts_lastError todoA { todoId := "1", newState := .running }
        (by decide)
    refine ⟨st, hst, ?_, ?_⟩
    · rw [hinc (Or.inl rfl)]
      decide
    · rw [hkeep rfl (by decide) (by decide)]
      decide
  · obtain ⟨st, hst, hinc, -, -, -, hclear, -⟩ :=
      claim3_attempts_lastError todoFailed { todoId := "1", newState := .pending }
        (by decide)
    refine ⟨st, hst, ?_, ?_⟩
    · rw [hinc (Or.inr ⟨by decide, rfl⟩)]
      decide
    · exact hclear rfl (by decide) rfl

/-- Branch equation: no main task in the group. -/
theorem check_main_none (gid : String) (todos : List Todo)
    (h : (groupTasksOf gid todos).find? isMainTask = none) :
    checkAndCompleteMainTask gid todos = { mainTaskCompleted := false } := by
  dsimp only [checkAndCompleteMainTask]
  by_cases hemp : (groupTasksOf gid todos).isEmpty = true
  · rw [if_pos hemp]
  · rw [if_neg hemp, h]

/-- Branch equation: a main task found. -/
theorem check_main_some (gid : String) (todos : List Todo) (m : Todo)
    (hfind : (groupTasksOf gid todos).find? isMainTask = some m) :
    checkAndCompleteMainTask gid todos =
      (if isDone m then { mainTaskCompleted := true, mainTask := some m }
       else if ((groupTasksOf gid todos).filter isSubtask).isEmpty then
         { mainTaskCompleted := false, mainTask := some m }
       else if ((groupTasksOf gid todos).filter isSubtask).all isDone then
         { mainTaskCompleted := true, mainTask := some (applyMainCompletion m),
           written := some (applyMainCompletion m) }
       else { mainTaskCompleted := false, mainTask := some m }) := by
  dsimp only [checkAndCompleteMainTask]
  have hemp : (groupTasksOf gid todos).isEmpty = false := by
    cases hg : groupTasksOf gid todos
    · rw [hg] at hfind
      simp at hfind
    · rfl
  simp only [hemp, Bool.false_eq_true, if_false]
  rw [hfind]

/-- **C10**.  When `checkAndCompleteMainTask` completes a main task, the
written update overrides only the `state` field of `executionStatus`
(to `completed`), carrying an existing `lastError` and `attempts` over
unchanged — unlike a validated state-machine transition to `completed`,
which clears `lastError`. -/
theorem claim10_completion_frame (gid : String) (todos : List Todo)
    (m : Todo) (st : ExecStatus)
    (hfind : (groupTasksOf gid todos).find? isMainTask = some m)
    (hst : m.executionStatus = some st) :
    (∀ w, (checkAndCompleteMainTask gid todos).written = some w →
      w.executionStatus =
        some { state := .completed, lastError := st.lastError,
               attempts := st.attempts }) ∧
    (∀ (todo : Todo) (request : StateTransitionRequest),
      request.error = none → request.newState = .completed →
      isValidTransition (currentStateOf todo) .completed = true →
      ∃ st2, (performStateTransition todo request).2 = some st2 ∧
        st2.state = .completed ∧ st2.lastError = none) := by
  constructor
  · intro w hw
    rw [check_main_some gid todos m hfind] at hw
    by_cases h1 : isDone m = true
    · rw [if_pos h1] at hw
      cases hw
    · rw [if_neg h1] at hw
      by_cases h2 : ((groupTasksOf gid todos).filter isSubtask).isEmpty = true
      · rw [if_pos h2] at hw
        cases hw
      · rw [if_neg h2] at hw
        by_cases h3 : ((groupTasksOf gid todos).filter isSubtask).all isDone = true
        · rw [if_pos h3] at hw
          have hw' : some (applyMainCompletion m) = some w := hw
          injection hw' with hw''
          rw [← hw'']
          show some (completedStatusOf m.executionStatus) = _
          rw [hst]
          rfl
        · rw [if_neg h3] at hw
          cases hw
  · intro todo request he hc hv
    dsimp only [performStateTransition]
    rw [hc, hv]
    simp only [Bool.not_true, Bool.false_eq_true, if_false]
    refine ⟨_, rfl, rfl, ?_⟩
    simp [he]

/-- A group-`"g"` main task whose execution status carries an error and an
attempt count. -/
def mainG : Todo :=
  { id := "m", title := "t", completed := false, createdAt := "",
    groupId := some "g", executionOrder := some 0,
    verificationMethod := some "check",
    executionStatus := some failedStatus }

/-- A completed subtask of group `"g"`. -/
def subG : Todo :=
  { id := "s", title := "t", completed := true, createdAt := "",
    groupId := some "g", executionOrder := some 1 }

/-- An incomplete subtask of group `"g"`. -/
def subG2 : Todo :=
  { id := "s2", title := "t", completed := false, createdAt := "",
    groupId := some "g", executionOrder := some 2 }

/-- The status expected after auto-completing `mainG`: only `state` changed. -/
def completedBoomStatus : ExecStatus :=
  { state := .completed, lastError := some "boom", attempts := some 1 }

/-- **C10 witness**: completing the group carries `lastError = "boom"` and
`attempts = 1` into the completed status verbatim. -/
theorem claim10_witness :
    ∃ w, (checkAndCompleteMainTask "g" [mainG, subG]).written = some w ∧
      w.executionStatus = some completedBoomStatus := by
  have h :=
    (claim10_completion_frame "g" [mainG, subG] mainG failedStatus
      (by decide) rfl).1
  exact ⟨applyMainCompletion mainG, by decide, h _ (by decide)⟩

/-- **C4**.  `checkAndCompleteMainTask` reports no completion without a main
task, reports already-complete without mutating when the main task is done,
reports not-complete when there are no subtasks, completes the main task
(setting `completed`, `executionStatus.state = completed`, and — with a
non-empty `verificationMethod` — `verificationStatus = verified`) exactly
when at least one subtask exists and all subtasks are done, and otherwise
leaves the main task unchanged, reporting not-complete. -/
theorem claim4_checkAndCompleteMainTask (gid : String) (todos : List Todo) :
    ((∀ t ∈ groupTasksOf gid todos, isMainTask t = false) →
      checkAndCompleteMainTask gid todos = { mainTaskCompleted := false }) ∧
    (∀ m, (groupTasksOf gid todos).find? isMainTask = some m →
      (isDone m = true →
        checkAndCompleteMainTask gid todos =
          { mainTaskCompleted := true, mainTask := some m }) ∧
      (isDone m = false →
        (∀ t ∈ groupTasksOf gid todos, isSubtask t = false) →
        checkAndCompleteMainTask gid todos =
          { mainTaskCompleted := false, mainTask := some m }) ∧
      (isDone m = false →
        (∃ t ∈ groupTasksOf gid todos, isSubtask t = true) →
        (∀ t ∈ groupTasksOf gid todos, isSubtask t = true → isDone t = true) →
        (checkAndCompleteMainTask gid todos =
          { mainTaskCompleted := true, mainTask := some (applyMainCompletion m),
            written := some (applyMainCompletion m) } ∧
         (applyMainCompletion m).completed = true ∧
         (applyMainCompletion m).executionStatus =
           some (completedStatusOf m.executionStatus) ∧
         (completedStatusOf m.executionStatus).state = .completed ∧
         (truthyStr m.verificationMethod = true →
           (applyMainCompletion m).verificationStatus = some .verified))) ∧
      (isDone m = false →
        (∃ t ∈ groupTasksOf gid todos, isSubtask t = true ∧ isDone t = false) →
        checkAndCompleteMainTask gid todos =
          { mainTaskCompleted := false, mainTask := some m })) := by
  constructor
  · intro hnone
    apply check_main_none gid todos
    rw [List.find?_eq_none]
    intro t ht
    simp [hnone t ht]
  · intro m hfind
    have heq := check_main_some gid todos m hfind
    refine ⟨?_, ?_, ?_, ?_⟩
    · intro h1
      rw [heq, if_pos h1]
    · intro h1 hsub
      rw [heq, if_neg (by rw [h1]; exact Bool.false_ne_true)]
      have hnil : (groupTasksOf gid todos).filter isSubtask = [] := by
        rw [List.filter_eq_nil_iff]
        intro t ht
        simp [hsub t ht]
      rw [hnil]
      rfl
    · intro h1 hex hall
      have hne : ((groupTasksOf gid todos).filter isSubtask).isEmpty = false := by
        obtain ⟨t, ht, hsub⟩ := hex
        have : t ∈ (groupTasksOf gid todos).filter isSubtask :=
          List.mem_filter.mpr ⟨ht, hsub⟩
        cases hf : (groupTasksOf gid todos).filter isSubtask
        · rw [hf] at this
          cases this
        · rfl
      have hdone : ((groupTasksOf gid todos).filter isSubtask).all isDone = true := by
        rw [List.all_eq_true]
        intro t ht
        obtain ⟨ht', hsub⟩ := List.mem_filter.mp ht
        exact hall t ht' hsub
      refine ⟨?_, rfl, rfl, by cases m.executionStatus <;> rfl, ?_⟩
      · rw [heq, if_neg (by rw [h1]; exact Bool.false_ne_true),
          if_neg (by rw [hne]; exact Bool.false_ne_true), if_pos hdone]
      · intro hm
        simp [applyMainCompletion, hm]
    · intro h1 hex
      have hall : ((groupTasksOf gid todos).filter isSubtask).all isDone = false := by
        rw [List.all_eq_false]
        obtain ⟨t, ht, hsub, hdone⟩ := hex
        exact ⟨t, List.mem_filter.mpr ⟨ht, hsub⟩, by simp [hdone]⟩
      have hne : ((groupTasksOf gid todos).filter isSubtask).isEmpty = false := by
        obtain ⟨t, ht, hsub, -⟩ := hex
        have : t ∈ (groupTasksOf gid todos).filter isSubtask :=
          List.mem_filter.mpr ⟨ht, hsub⟩
        cases hf : (groupTasksOf gid todos).filter isSubtask
        · rw [hf] at this
          cases this
        · rfl
      rw [heq, if_neg (by rw [h1]; exact Bool.false_ne_true),
        if_neg (by rw [hne]; exact Bool.false_ne_true),
        if_neg (by rw [hall]; exact Bool.false_ne_true)]

/-- **C4 witness**: with both subtasks complete the main task of group `"g"`
is auto-completed and auto-verified; with one incomplete subtask it is left
unchanged and not-complete is reported. -/
theorem claim4_witness :
    checkAndCompleteMainTask "g" [mainG, subG, subG2] =
      { mainTaskCompleted := false, mainTask := some mainG } ∧
    checkAndCompleteMainTask "g" [mainG, subG] =
      { mainTaskCompleted := true, mainTask := some (applyMainCompletion mainG),
        written := some (applyMainCompletion mainG) } ∧
    (applyMainCompletion mainG).verificationStatus = some .verified := by
  refine ⟨?_, ?_, ?_⟩
  · exact ((claim4_checkAndCompleteMainTask "g" [mainG, subG, subG2]).2 mainG
      (by decide)).2.2.2 (by decide) ⟨subG2, by decide, by decide, by decide⟩
  · exact (((claim4_checkAndCompleteMainTask "g" [mainG, subG]).2 mainG
      (by decide)).2.2.1 (by decide) ⟨subG, by decide, by decide⟩ (by decide)).1
  · exact ((((claim4_checkAndCompleteMainTask "g" [mainG, subG]).2 mainG
      (by decide)).2.2.1 (by decide) ⟨subG, by decide, by decide⟩ (by decide)).2.2.2.2)
      (by decide)

/-! ## Claims about the task manager and persistence -/

/-- `Map.set` on a key makes `Map.get` on that key return the new value. -/
theorem mapGet_mapSet (m : List (String × Todo)) (k : String) (v : Todo) :
    mapGet (mapSet m k v) k = some v := by
  unfold mapGet mapSet
  by_cases h : m.any (fun p => p.1 == k) = true
  · rw [if_pos h]
    induction m with
    | nil => simp at h
    | cons p ps ih =>
      by_cases hp : p.1 = k
      · rw [List.map_cons, if_pos (by simpa using hp),
          List.find?_cons_of_pos _ (by simp)]
        rfl
      · rw [List.map_cons, if_neg (by simpa using hp),
          List.find?_cons_of_neg _ (by simpa using hp)]
        apply ih
        rw [List.any_cons] at h
        rcases Bool.or_eq_true_iff.mp h with h1 | h1
        · exact absurd (by simpa using h1) hp
        · exact h1
  · rw [if_neg h]
    rw [List.find?_append]
    have hnone : m.find? (fun p => p.1 == k) = none := by
      rw [List.find?_eq_none]
      intro p hp hpk
      exact h (List.any_eq_true.mpr ⟨p, hp, hpk⟩)
    rw [hnone, Option.none_or, List.find?_cons_of_pos _ (by simp)]
    rfl

/-- **C7**.  `createTodo` fails (store untouched) when the title trims to
empty, fails with the Resolver's error (store untouched) when supplied
dependencies do not validate against the identifier the new task is about to
receive, and on success stores the new task under the next sequential
identifier, increments the counter, and returns the new task. -/
theorem claim7_createTodo (store : TodoStore) (request : CreateTodoRequest)
    (now : String) :
    (jsTrim request.title = "" →
      createTodo store request now = (store, .error .emptyTitle)) ∧
    (jsTrim request.title ≠ "" →
      ∀ deps, request.dependencies = some deps → deps ≠ [] →
      ∀ e, validateDependencies (toString store.nextId) deps
          (getAllTodos store) = .error e →
      createTodo store request now = (store, .error (.validation e))) ∧
    (∀ store2 t, createTodo store request now = (store2, .ok t) →
      t.id = toString store.nextId ∧
      store2.nextId = store.nextId + 1 ∧
      store2.todos = mapSet store.todos t.id t ∧
      mapGet store2.todos (toString store.nextId) = some t ∧
      t.title = jsTrim request.title ∧ t.completed = false ∧ t.createdAt = now) := by
  refine ⟨?_, ?_, ?_⟩
  · intro h
    unfold createTodo
    rw [if_pos h]
  · intro htitle deps hdeps hne e hval
    unfold createTodo
    rw [if_neg htitle]
    have hv : createValidation store request = .error e := by
      simp only [createValidation, hdeps]
      rw [if_neg (by simpa using hne)]
      exact hval
    rw [hv]
  · intro store2 t hok
    by_cases htitle : jsTrim request.title = ""
    · unfold createTodo at hok
      rw [if_pos htitle] at hok
      simp at hok
    · unfold createTodo at hok
      rw [if_neg htitle] at hok
      cases hv : createValidation store request with
      | error e =>
        rw [hv] at hok
        simp at hok
      | ok u =>
        rw [hv] at hok
        have hok' : (storeAfterCreate store request now,
            (Except.ok (builtTodo store request now) : Except CreateError Todo)) =
            (store2, Except.ok t) := hok
        have hstore := congrArg Prod.fst hok'
        have ht : builtTodo store request now = t := by
          have hsnd := congrArg Prod.snd hok'
          simpa using hsnd
        subst ht
        simp only at hstore
        rw [← hstore]
        exact ⟨rfl, rfl, rfl, mapGet_mapSet store.todos _ _, rfl, rfl, rfl⟩

/-- The empty store. -/
def store0 : TodoStore := { todos := [], nextId := 1 }

/-- The task `createTodo` builds from the request `{ title := " hi " }` at
time `"now"` in the empty store. -/
def todoHi : Todo := { id := "1", title := "hi", completed := false, createdAt := "now" }

/-- **C7 witness**: a blank title is rejected leaving the store unchanged;
a successful creation stores the trimmed task under id `"1"`. -/
theorem claim7_witness :
    createTodo store0 { title := "   " } "now" =
      (store0, .error .emptyTitle) ∧
    mapGet (createTodo store0 { title := " hi " } "now").1.todos "1" =
      some todoHi := by
  constructor
  · exact (claim7_createTodo store0 { title := "   " } "now").1 (by decide)
  · have h := ((claim7_createTodo store0 { title := " hi " } "now").2.2
      { todos := [("1", todoHi)], nextId := 2 } todoHi (by decide)).2.2.2.1
    exact h

/-- A task whose `verificationMethod` is present but empty. -/
def todoEmptyVM : Todo := { todoA with verificationMethod := some "" }

/-- **C9** (amended).  `getTodosNeedingVerification` returns exactly the
tasks whose `verificationMethod` is *present* (`!== undefined`, including the
empty string) and whose `verificationStatus` is absent or `pending`,
restricted to the request's `groupId` when one is supplied. -/
theorem claim9_getTodosNeedingVerification
    (request : GetTodosNeedingVerificationRequest) (todos : List Todo) :
    ∀ t, t ∈ getTodosNeedingVerification request todos ↔
      (t ∈ todos ∧ t.verificationMethod ≠ none ∧
       (t.verificationStatus = some .pending ∨ t.verificationStatus = none) ∧
       (request.groupId = none ∨ t.groupId = request.groupId)) := by
  intro t
  unfold getTodosNeedingVerification
  rw [List.mem_filter]
  simp only [Bool.and_eq_true, Bool.or_eq_true, beq_iff_eq,
    Option.isSome_iff_ne_none, and_assoc]

/-- **C9 counterexample**: a task whose `verificationMethod` is the *empty*
string is returned — the code checks presence, not non-emptiness. -/
theorem claim9_counterexample :
    getTodosNeedingVerification { groupId := none } [todoEmptyVM] =
      [todoEmptyVM] ∧
    todoEmptyVM.verificationMethod = some "" := ⟨by decide, rfl⟩

/-- **C9 witness**: the empty-method task satisfies the amended
characterization. -/
theorem claim9_witness :
    todoEmptyVM ∈ getTodosNeedingVerification { groupId := none } [todoEmptyVM] :=
  (claim9_getTodosNeedingVerification { groupId := none } [todoEmptyVM]
      todoEmptyVM).mpr
    ⟨List.mem_singleton.mpr rfl, by decide, Or.inr rfl, Or.inl rfl⟩

theorem keepTruthy_of_ne (s : Option String) (h : s ≠ some "") :
    keepTruthy s = s := by
  cases s with
  | none => rfl
  | some v =>
    simp only [keepTruthy]
    rw [if_neg]
    intro hv
    exact h (by rw [hv])

/-- **C8** (amended).  Saving then loading yields tasks equal in all fields
to the originals (`createdAt` at ISO-string granularity), provided no present
optional *string* field (`description`, `groupId`, `verificationMethod`,
`verificationNotes`) is the empty string — the loader's truthiness guards
drop empty strings.  Loading a legacy document lacking the newer optional
fields yields tasks on which those fields are absent. -/
theorem claim8_persistence_roundTrip :
    (∀ (todos : List Todo) (nextId : Nat),
      (∀ t ∈ todos, t.description ≠ some "" ∧ t.groupId ≠ some "" ∧
        t.verificationMethod ≠ some "" ∧ t.verificationNotes ≠ some "") →
      (loadTodos (saveTodos todos nextId)).1 = todos) ∧
    (∀ (id title createdAt : String) (completed : Bool),
      loadTodo { id := id, title := title, completed := completed, createdAt := createdAt } =
        { id := id, title := title, completed := completed, createdAt := createdAt }) := by
  constructor
  · intro todos nextId hgood
    have hsingle : ∀ t ∈ todos, loadTodo (saveTodo t) = t := by
      intro t ht
      obtain ⟨h1, h2, h3, h4⟩ := hgood t ht
      unfold loadTodo saveTodo
      rw [keepTruthy_of_ne _ h1, keepTruthy_of_ne _ h2, keepTruthy_of_ne _ h3,
        keepTruthy_of_ne _ h4]
    unfold saveTodos loadTodos
    simp only [List.map_map]
    induction todos with
    | nil => rfl
    | cons t ts ih =>
      rw [List.map_cons]
      rw [ih (fun x hx => hgood x (List.mem_cons_of_mem _ hx))
        (fun x hx => hsingle x (List.mem_cons_of_mem _ hx))]
      rw [Function.comp_apply, hsingle t (List.mem_cons_self _ _)]
  · intro id title createdAt completed
    rfl

/-- A task carrying an empty-string `description`. -/
def todoEmptyDesc : Todo := { todoA with description := some "" }

/-- **C8 counterexample**: an empty-string `description` does not survive the
round trip — it is dropped on load, so the loaded task differs. -/
theorem claim8_counterexample :
    todoEmptyDesc.description = some "" ∧
    (loadTodos (saveTodos [todoEmptyDesc] 1)).1 =
      [{ todoEmptyDesc with description := none }] ∧
    (loadTodos (saveTodos [todoEmptyDesc] 1)).1 ≠ [todoEmptyDesc] := by
  refine ⟨rfl, by decide, by decide⟩

/-- **C8 witness**: a population without empty-string optional fields
round-trips unchanged. -/
theorem claim8_witness :
    (loadTodos (saveTodos [todoA, mainG] 7)).1 = [todoA, mainG] :=
  claim8_persistence_roundTrip.1 [todoA, mainG] 7 (by decide)

end AiyaTodo
